import Mathlib

/-!
Verification of `hunter.py` (text_hunter): a recursive file scanner that
extracts "header blocks" (contiguous lines following a trigger phrase, up
to the next blank line) and aggregates the extracted lines into occurrence
counts and a ranked heat-map.

Shallow embedding conventions:
* Python `str` values that are scanned character by character (file lines)
  are modelled as `List Char`; file paths are modelled as `String`.
* `Results` (a `UserList` of `Result`) is modelled as `List Result`.
* A Python `dict` comprehension is modelled as an association list whose
  keys appear in first-insertion order (`dictKeys`).
* A Python `set` converted back to a `list` has arbitrary order; we model
  `list(set(xs))` as `xs.dedup`, which is faithful up to ordering (the
  spec only constrains cardinality and membership of these views).
* File contents reach the extractor as an `Except Unit (List Line)` per
  path: `Except.error ()` models a `UnicodeDecodeError` raised while
  reading the file as UTF-8, `Except.ok lines` models `readlines()`
  (lines keep their trailing `'\n'`).
* The filesystem seen by `glob` is modelled as a flat list of entries,
  each an absolute path (a list of name components) plus an is-directory
  flag; `pathlib.Path.resolve` is the identity on these canonical paths.
-/

namespace Hunter

/-- A scanned line of text, modelling a Python `str` produced by `readlines()`. -/
abbrev Line : Type := List Char

/-- `class Result` (hunter.py lines 23-31): one matched line, holding the
source file path and the raw line content. -/
structure Result where
  path : String
  content : Line
deriving DecidableEq, Repr

/-- `class Results(UserList)` (hunter.py line 39): an ordered collection of
`Result` in scan order. -/
abbrev Results : Type := List Result

/-- The characters stripped by Python's `str.strip()` with no argument
(Unicode whitespace as recognised by CPython). -/
def pySpaceChars : List Char :=
  [' ', '\t', '\n', '\r', '\x0b', '\x0c',
   '\x1c', '\x1d', '\x1e', '\x1f', '\x85', '\xa0',
   ' ', ' ', ' ', ' ', ' ', ' ', ' ',
   ' ', ' ', ' ', ' ', ' ', ' ', ' ',
   ' ', ' ', '　']

/-- Whether `str.strip()` removes this character from the ends of a string. -/
def pyIsSpace (c : Char) : Bool := pySpaceChars.contains c

/-- `command.replace("\n", "")` (hunter.py line 36): removes every newline
character. -/
def removeNewlines (s : Line) : Line := s.filter (fun c => c != '\n')

/-- The left half of Python `str.strip()`: drop leading whitespace. -/
def lstrip (s : Line) : Line := s.dropWhile pyIsSpace

/-- The right half of Python `str.strip()`: drop trailing whitespace. -/
def rstrip (s : Line) : Line := (s.reverse.dropWhile pyIsSpace).reverse

/-- Python `str.strip()`: drop whitespace from both ends. -/
def pyStrip (s : Line) : Line := rstrip (lstrip s)

/-- `def sanitized(command)` (hunter.py lines 34-36):
`command.replace("\n", "").strip()`. -/
def sanitized (command : Line) : Line := pyStrip (removeNewlines command)

/-- `Results.contents` (hunter.py lines 45-48): the non-unique list of raw
contents, in collection order. -/
def contents (self : Results) : List Line := self.map (fun r => r.content)

/-- The key sequence of a Python dict comprehension `{item: ... for item in l}`:
each distinct element once, in first-insertion order. -/
def dictKeys (l : List Line) : List Line :=
  l.foldl (fun acc x => if x ∈ acc then acc else acc ++ [x]) []

/-- `Results.content_occurence` (hunter.py lines 50-53):
`{item: self.contents.count(item) for item in self.contents}`, modelled as
an association list keyed in first-insertion order. -/
def content_occurence (self : Results) : List (Line × Nat) :=
  (dictKeys (contents self)).map (fun k => (k, (contents self).count k))

/-- `Results.content_unique` (hunter.py lines 55-60):
`list(set([sanitized(x) for x in self.contents]))`, modelled up to the
arbitrary ordering of a Python set. -/
def content_unique (self : Results) : List Line :=
  ((contents self).map sanitized).dedup

/-- `Results.paths` (hunter.py lines 62-65): all source paths, with repeats. -/
def paths (self : Results) : List String := self.map (fun r => r.path)

/-- `Results.paths_unique` (hunter.py lines 67-70): `list(set(self.paths))`,
modelled up to the arbitrary ordering of a Python set. -/
def paths_unique (self : Results) : List String := (paths self).dedup

/-- The comparison used by `sorted(..., key=lambda x: x[1], reverse=True)`:
`a` may come before `b` exactly when `a`'s count is at least `b`'s count
(Python's sort is stable, and `reverse=True` reverses the key order while
keeping ties in original order — exactly stable merge sort under this
relation). -/
def countDesc (a b : Line × Nat) : Bool := decide (b.2 ≤ a.2)

/-- `Results.heatmap` (hunter.py lines 72-77). NOTE: the source reads
`commands.content_occurence` — the module-level global assigned in
`__main__` — not `self.content_occurence`; the embedding therefore takes
the global `commands` as an explicit second argument and ignores `self`,
exactly as the code does. -/
def heatmap (_self commandsGlobal : Results) : List (Line × Nat) :=
  (content_occurence commandsGlobal).mergeSort countDesc

/-- Python `needle in hay` for strings: substring containment. -/
def pyIn (needle : Line) : Line → Bool
  | [] => needle.isEmpty
  | c :: rest => needle.isPrefixOf (c :: rest) || pyIn needle rest

/-- The literal `"###"` tested on hunter.py line 127. -/
def hashes : Line := ['#', '#', '#']

/-- One iteration of the `for _line in content.readlines()` loop
(hunter.py lines 122-128), threading the `found` flag and the accumulated
`_commands` list:
1. `if any(phrase in _line for phrase in phrases): found = True`
2. `if len(_line) <= 1: found = False`
3. `if found is True and "###" not in _line and _line[0] != "#": append`.
The first-character read `_line[0]` is modelled with `headD` (a default
that can never fire when the guard holds, see the safety theorem for C10). -/
def lineStep (phrases : List Line) (path : String) (st : Bool × Results)
    (line : Line) : Bool × Results :=
  let found1 : Bool := if phrases.any (fun phrase => pyIn phrase line) then true else st.1
  let found2 : Bool := if line.length ≤ 1 then false else found1
  if found2 && !(pyIn hashes line) && (line.headD '#' != '#')
  then (found2, st.2 ++ [⟨path, line⟩])
  else (found2, st.2)

/-- The scan of a single file's lines (hunter.py lines 120-128): `found`
starts `False` for each file and the emitted entries are appended in line
order. -/
def scanFile (phrases : List Line) (path : String) (lines : List Line) : Results :=
  (lines.foldl (lineStep phrases path) (false, [])).2

/-- The outer file loop of `find_by_headers` (hunter.py lines 118-129),
over already-enumerated files paired with their decode result. Opening a
file that is not valid UTF-8 raises (`Except.error`), which aborts the
whole loop and discards the partial `_commands` accumulator. -/
def scanAll (phrases : List Line) (acc : Results) :
    List (String × Except Unit (List Line)) → Except Unit Results
  | [] => Except.ok acc
  | (_p, Except.error e) :: _rest => Except.error e
  | (p, Except.ok ls) :: rest => scanAll phrases (acc ++ scanFile phrases p ls) rest

/-- `def find_by_headers` (hunter.py lines 101-129) restricted to its scan
phase: the extractor over the enumerated files (with their decode
results), starting from an empty `_commands = Results()`. -/
def find_by_headers (phrases : List Line)
    (files : List (String × Except Unit (List Line))) : Except Unit Results :=
  scanAll phrases [] files

/-- The guard structure of hunter.py line 127 up to (but not including)
the read of `_line[0]`: Python's `and` short-circuits, so the expression
`_line[0]` is evaluated in an iteration exactly when this function
returns `true` for that iteration's incoming `found` state and line. -/
def evaluatesFirstChar (phrases : List Line) (found : Bool) (line : Line) : Bool :=
  let found1 : Bool := if phrases.any (fun phrase => pyIn phrase line) then true else found
  let found2 : Bool := if line.length ≤ 1 then false else found1
  found2 && !(pyIn hashes line)

/-- One filesystem entry: an absolute path (list of name components) and
whether it is a directory. -/
structure FSEntry where
  path : List String
  isDir : Bool
deriving DecidableEq, Repr

/-- Whether a name is hidden for `glob` purposes: it starts with a dot.
CPython's `glob` never matches hidden names with the wildcards `*` and
`**` (neither the final `*.{ext}` component nor directories traversed by
`**`). -/
def hiddenName (s : String) : Bool :=
  match s.data with
  | [] => false
  | c :: _ => c == '.'

/-- Whether a name ends with `"." ++ ext`, i.e. is matched by the final
pattern component `*.{ext}` apart from the hidden-name rule. -/
def nameEndsWithExt (s : String) (ext : String) : Bool :=
  List.isPrefixOf (ext.data.reverse ++ ['.']) s.data.reverse

/-- Whether `glob.glob(f"{target}/**/*.{ext}", recursive=True)` matches an
absolute path `p`: `p` extends `root` by at least one component, every
intermediate component matched by `**` is non-hidden, and the final
component is non-hidden and ends with `"." ++ ext`. -/
def globMatch (root : List String) (ext : String) (p : List String) : Bool :=
  root.isPrefixOf p && decide (root.length < p.length) &&
    (let rest := p.drop root.length
     rest.dropLast.all (fun m => !hiddenName m) &&
       !hiddenName (rest.getLastD "") &&
       nameEndsWithExt (rest.getLastD "") ext)

/-- `def files_by_extension` (hunter.py lines 85-98): one glob per
extension, chained in extension order, directories filtered out, paths
resolved (the identity here, paths being already canonical). `glob`
suppresses `OSError` internally, so this function is total: a missing or
unreadable root yields no matches rather than an exception. -/
def files_by_extension (fs : List FSEntry) (target : List String)
    (extensions : List String) : List (List String) :=
  (((extensions.map (fun x => fs.filter (fun e => globMatch target x e.path))).flatten.filter
      (fun e => !e.isDir)).map (fun e => e.path))

/-! ### Concrete scenario inputs -/

/-- Scenario A's file contents: `HEADER:\nfoo\nbar\n\nbaz` as read by
`readlines()` (terminators preserved). -/
def scenarioALines : List Line :=
  ["HEADER:\n".toList, "foo\n".toList, "bar\n".toList, "\n".toList, "baz".toList]

/-- Scenario C's two files: distinct paths, identical contents; the
trigger line `### H:\n` opens capturing but is itself suppressed by the
`"###"` guard, so each file contributes exactly the one entry `x\n`. -/
def scenarioCFiles : List (String × Except Unit (List Line)) :=
  [("/t/f1.txt", Except.ok ["### H:\n".toList, "x\n".toList]),
   ("/t/f2.txt", Except.ok ["### H:\n".toList, "x\n".toList])]

/-- The collection Scenario C's scan produces. -/
def scenarioCColl : Results :=
  [⟨"/t/f1.txt", "x\n".toList⟩, ⟨"/t/f2.txt", "x\n".toList⟩]

/-- A one-entry collection used to exhibit the `heatmap` global-variable
slip. -/
def oneEntryColl : Results := [⟨"/t/p.txt", "a\n".toList⟩]

/-! ### Claim theorems -/

/-- Claim C3: on the file with lines `HEADER:\n`, `foo\n`, `bar\n`, `\n`,
`baz`, scanned with the single trigger phrase `HEADER:`, the extractor
emits exactly the entries `HEADER:\n`, `foo\n`, `bar\n` in that order; the
blank terminator line and the `baz` line after it are not emitted. -/
theorem scanFile_scenarioA :
    scanFile ["HEADER:".toList] "/t/a.txt" scenarioALines =
      [⟨"/t/a.txt", "HEADER:\n".toList⟩,
       ⟨"/t/a.txt", "foo\n".toList⟩,
       ⟨"/t/a.txt", "bar\n".toList⟩] := by
  decide

/-- Claim C4: a line that contains a trigger phrase and has length greater
than one leaves the capturing state `true`, and is itself emitted as an
entry (appended to the accumulator) if and only if it does not contain
`"###"` and its first character is not `'#'`. -/
theorem lineStep_trigger_line (phrases : List Line) (path : String)
    (found : Bool) (out : Results) (line : Line)
    (hphrase : phrases.any (fun phrase => pyIn phrase line) = true)
    (hlen : 1 < line.length) :
    (lineStep phrases path (found, out) line).1 = true ∧
    ((lineStep phrases path (found, out) line).2 = out ++ [⟨path, line⟩] ↔
      (pyIn hashes line = false ∧ line.headD '#' ≠ '#')) := by
  obtain ⟨a, t, rfl⟩ : ∃ a t, line = a :: t := by
    cases line with
    | nil => simp at hlen
    | cons a t => exact ⟨a, t, rfl⟩
  have hlen' : ¬ (a :: t).length ≤ 1 := by omega
  unfold lineStep
  simp only [hphrase, if_true, hlen', if_false, Bool.true_and, List.headD_cons]
  by_cases h3 : pyIn hashes (a :: t)
  · simp [h3]
  · by_cases h0 : a = '#'
    · simp [h3, h0]
    · simp [h3, h0]

/-- Witness for C4 at the line `H\n` with phrase `H`. -/
theorem lineStep_trigger_line_witness :
    (lineStep [['H']] "/t/p.txt" (false, []) ['H', '\n']).1 = true ∧
    ((lineStep [['H']] "/t/p.txt" (false, []) ['H', '\n']).2 =
        [] ++ [⟨"/t/p.txt", ['H', '\n']⟩] ↔
      (pyIn hashes ['H', '\n'] = false ∧ (['H', '\n'] : Line).headD '#' ≠ '#')) :=
  lineStep_trigger_line [['H']] "/t/p.txt" false [] ['H', '\n'] (by decide) (by decide)

/-- Claim C7: the collection built by scanning Scenario C's two files has
occurrence count 2 for `x\n`, a unique-content view with exactly the one
sanitized element `x`, and a unique-paths view with exactly two elements. -/
theorem scenarioC_views :
    find_by_headers ["H:".toList] scenarioCFiles = Except.ok scenarioCColl ∧
    content_occurence scenarioCColl = [("x\n".toList, 2)] ∧
    content_unique scenarioCColl = ["x".toList] ∧
    (content_unique scenarioCColl).length = 1 ∧
    paths_unique scenarioCColl = ["/t/f1.txt", "/t/f2.txt"] ∧
    (paths_unique scenarioCColl).length = 2 := by
  exact ⟨rfl, by decide, by decide, by decide, by decide, by decide⟩

/-- Claim C1 (code bug): `heatmap` reads the module-global `commands`
instead of `self`, so for a collection holding one entry (while the global
is, say, empty) the heat-map has zero entries and its counts sum to zero —
not one entry per distinct raw text of the collection. -/
theorem heatmap_ignores_self :
    heatmap oneEntryColl [] = [] ∧
    oneEntryColl.length = 1 ∧
    dictKeys (contents oneEntryColl) = ["a\n".toList] := by
  refine ⟨?_, by decide, by decide⟩
  show (content_occurence []).mergeSort countDesc = []
  rw [show content_occurence [] = [] from rfl, List.mergeSort_nil]

/-- Claim C10: the value of the guard of hunter.py line 127 up to the
point where `_line[0]` would be read is `true` only for lines of length at
least 2: the blank-line rule forces `found = False` on shorter lines
before the guard, and `and` short-circuits. Hence the first-character
access is never performed on an empty (or any length-≤-1) line. -/
theorem evaluatesFirstChar_safe (phrases : List Line) (found : Bool) (line : Line)
    (h : evaluatesFirstChar phrases found line = true) : 2 ≤ line.length := by
  by_cases hl : line.length ≤ 1
  · exfalso
    unfold evaluatesFirstChar at h
    simp only [hl, if_true, Bool.false_and] at h
    exact Bool.false_ne_true h
  · omega

/-- Witness for C10 at the line `ab` with phrase `a`. -/
theorem evaluatesFirstChar_safe_witness : 2 ≤ (['a', 'b'] : Line).length :=
  evaluatesFirstChar_safe [['a']] false ['a', 'b'] (by decide)

/-- A decode failure anywhere in the file list makes the whole scan loop
return that failure, whatever has been accumulated so far. -/
theorem scanAll_error_of_mem (phrases : List Line) :
    ∀ (files : List (String × Except Unit (List Line))) (acc : Results),
      (∃ f ∈ files, f.2 = Except.error ()) →
      scanAll phrases acc files = Except.error ()
  | [], _acc, h => by simp at h
  | (p, c) :: rest, acc, h => by
    cases c with
    | error e => cases e; rfl
    | ok ls =>
      rcases h with ⟨g, hg, hge⟩
      rcases List.mem_cons.mp hg with hgf | hgr
      · rw [hgf] at hge
        exact absurd hge (by simp)
      · exact scanAll_error_of_mem phrases rest (acc ++ scanFile phrases p ls) ⟨g, hgr, hge⟩

/-- Claim C6: if any enumerated file fails to decode as UTF-8, the error
propagates out of the extractor and the entire scan aborts: the result is
the error, not a collection, and no partial results survive. -/
theorem find_by_headers_decode_error (phrases : List Line)
    (files : List (String × Except Unit (List Line)))
    (h : ∃ f ∈ files, f.2 = Except.error ()) :
    find_by_headers phrases files = Except.error () :=
  scanAll_error_of_mem phrases files [] h

/-- Witness for C6: a good file followed by an undecodable one. -/
theorem find_by_headers_decode_error_witness :
    find_by_headers ["H:".toList]
      [("/t/f1.txt", Except.ok ["x\n".toList]), ("/t/bad.txt", Except.error ())] =
      Except.error () :=
  find_by_headers_decode_error ["H:".toList]
    [("/t/f1.txt", Except.ok ["x\n".toList]), ("/t/bad.txt", Except.error ())]
    ⟨("/t/bad.txt", Except.error ()), by simp, rfl⟩

/-! ### Sanitization lemmas (claim C9) -/

/-- `dropWhile` is idempotent. -/
theorem dropWhile_dropWhile_same {α : Type} (p : α → Bool) (l : List α) :
    (l.dropWhile p).dropWhile p = l.dropWhile p := by
  induction l with
  | nil => rfl
  | cons a t ih =>
    cases hp : p a
    · simp [List.dropWhile_cons, hp]
    · simp [List.dropWhile_cons, hp, ih]

/-- If dropping leading whitespace changes nothing, the head is not
whitespace. -/
theorem head_not_space_of_lstrip_self (a : Char) (t : Line)
    (h : lstrip (a :: t) = a :: t) : pyIsSpace a = false := by
  cases hp : pyIsSpace a
  · rfl
  · exfalso
    unfold lstrip at h
    rw [List.dropWhile_cons, if_pos hp] at h
    have hle : (t.dropWhile pyIsSpace).length ≤ t.length :=
      (List.dropWhile_sublist pyIsSpace).length_le
    have := congrArg List.length h
    simp at this
    omega

/-- `rstrip` only removes characters from the end, so its result is a
prefix of its argument. -/
theorem rstrip_isPrefix (m : Line) : rstrip m <+: m := by
  unfold rstrip
  have h1 : m.reverse.dropWhile pyIsSpace <:+ m.reverse := List.dropWhile_suffix _
  have h2 := List.reverse_prefix.mpr h1
  rwa [List.reverse_reverse] at h2

/-- If `m` is fixed by `lstrip`, then so is `rstrip m`. -/
theorem lstrip_rstrip_of_lstrip_self (m : Line) (h : lstrip m = m) :
    lstrip (rstrip m) = rstrip m := by
  cases hr : rstrip m with
  | nil => rfl
  | cons a s =>
    obtain ⟨t, ht⟩ := rstrip_isPrefix m
    rw [hr] at ht
    have hm : m = a :: (s ++ t) := by rw [← ht]; simp
    have hsp : pyIsSpace a = false := by
      apply head_not_space_of_lstrip_self a (s ++ t)
      rw [← hm]
      exact h
    unfold lstrip
    rw [List.dropWhile_cons, if_neg (by simp [hsp])]

/-- `rstrip` is idempotent. -/
theorem rstrip_rstrip (m : Line) : rstrip (rstrip m) = rstrip m := by
  unfold rstrip
  rw [List.reverse_reverse, dropWhile_dropWhile_same]

/-- `pyStrip` is idempotent. -/
theorem pyStrip_idempotent (l : Line) : pyStrip (pyStrip l) = pyStrip l := by
  unfold pyStrip
  have h1 : lstrip (lstrip l) = lstrip l := dropWhile_dropWhile_same pyIsSpace l
  rw [lstrip_rstrip_of_lstrip_self (lstrip l) h1, rstrip_rstrip]

/-- `pyStrip` only removes characters, so its result is a sublist. -/
theorem pyStrip_sublist (l : Line) : List.Sublist (pyStrip l) l := by
  have h1 : List.Sublist (lstrip l) l := List.dropWhile_sublist pyIsSpace
  have h2 : List.Sublist (pyStrip l) (lstrip l) := (rstrip_isPrefix (lstrip l)).sublist
  exact h2.trans h1

/-- Claim C9: sanitization is idempotent — sanitizing an already-sanitized
string yields the same string. -/
theorem sanitized_idempotent (s : Line) : sanitized (sanitized s) = sanitized s := by
  unfold sanitized
  have hnl : removeNewlines (pyStrip (removeNewlines s)) = pyStrip (removeNewlines s) := by
    apply List.filter_eq_self.mpr
    intro a ha
    have ha' : a ∈ removeNewlines s := (pyStrip_sublist (removeNewlines s)).subset ha
    have ha2 : a ∈ List.filter (fun c => c != '\n') s := ha'
    exact (List.mem_filter.mp ha2).2
  rw [hnl, pyStrip_idempotent]

/-! ### Heat-map sortedness (claim C8) -/

/-- `countDesc` is transitive. -/
theorem countDesc_trans : ∀ (a b c : Line × Nat),
    countDesc a b → countDesc b c → countDesc a c := by
  intro a b c hab hbc
  simp only [countDesc, decide_eq_true_eq] at *
  omega

/-- `countDesc` is total. -/
theorem countDesc_total : ∀ (a b : Line × Nat), countDesc a b || countDesc b a := by
  intro a b
  simp only [countDesc]
  rcases Nat.le_total a.2 b.2 with h | h <;> simp [h]

/-- Claim C8: whenever the heat-map has more than one entry, its entries
are sorted by occurrence count in descending order: every entry's count is
greater than or equal to every later entry's count (in particular the next
one's). -/
theorem heatmap_sorted (self commandsGlobal : Results)
    (_h : 1 < (heatmap self commandsGlobal).length) :
    (heatmap self commandsGlobal).Pairwise (fun a b => b.2 ≤ a.2) := by
  have hs := List.sorted_mergeSort countDesc_trans countDesc_total
    (content_occurence commandsGlobal)
  apply hs.imp
  intro a b hab
  simpa [countDesc] using hab

/-- Witness for C8: a two-entry global collection whose heat-map has two
entries. -/
theorem heatmap_sorted_witness :
    (heatmap [] [⟨"/t/p.txt", "a\n".toList⟩, ⟨"/t/p.txt", "b\n".toList⟩]).Pairwise
      (fun a b => b.2 ≤ a.2) := by
  apply heatmap_sorted
  rw [show heatmap [] [⟨"/t/p.txt", "a\n".toList⟩, ⟨"/t/p.txt", "b\n".toList⟩] =
        (content_occurence [⟨"/t/p.txt", "a\n".toList⟩, ⟨"/t/p.txt", "b\n".toList⟩]).mergeSort
          countDesc from rfl,
      List.mergeSort_of_sorted (by decide)]
  decide

/-! ### Enumerator (claims C2 and C5) -/

/-- A filesystem whose only file lies outside the root `["missing"]`:
that root does not exist. -/
def noRootFS : List FSEntry := [⟨["other", "a.txt"], false⟩]

/-- Counterexample to claim C2 as stated: for a root that does not exist,
the enumerator returns normally with the empty list — it does not surface
an I/O error, because `glob.glob` yields no matches (and internally
suppresses `OSError`) instead of raising. -/
theorem files_by_extension_silent_on_missing_root :
    (∀ e ∈ noRootFS, List.isPrefixOf ["missing"] e.path = false) ∧
    files_by_extension noRootFS ["missing"] ["txt"] = [] := by
  decide

/-- Claim C2 (amended): if the root path does not exist — no filesystem
entry's path extends it — the enumerator silently returns the empty list,
with no error surfaced to the caller. -/
theorem files_by_extension_missing_root (fs : List FSEntry) (root : List String)
    (exts : List String)
    (h : ∀ e ∈ fs, List.isPrefixOf root e.path = false) :
    files_by_extension fs root exts = [] := by
  unfold files_by_extension
  have hfilter : ∀ x, fs.filter (fun e => globMatch root x e.path) = [] := by
    intro x
    rw [List.filter_eq_nil_iff]
    intro e he
    unfold globMatch
    simp [h e he]
  have hflat : (exts.map (fun x => fs.filter (fun e => globMatch root x e.path))).flatten = [] := by
    rw [List.flatten_eq_nil_iff]
    intro l hl
    rcases List.mem_map.mp hl with ⟨x, _, hx⟩
    rw [← hx, hfilter]
  rw [hflat]
  rfl

/-- Witness for the amended C2 at the concrete missing root. -/
theorem files_by_extension_missing_root_witness :
    files_by_extension noRootFS ["missing"] ["txt"] = [] :=
  files_by_extension_missing_root noRootFS ["missing"] ["txt"] (by decide)

/-- A filesystem with one hidden (dot-named) text file under the root. -/
def hiddenFileFS : List FSEntry := [⟨["r", ".a.txt"], false⟩]

/-- Counterexample to claim C5 as stated: `.a.txt` is a non-directory file
directly under the root whose name ends with `.txt`, yet the enumerator
does not return it — `glob`'s `*` wildcard never matches names starting
with a dot. -/
theorem files_by_extension_misses_hidden_file :
    (∃ e ∈ hiddenFileFS, e.isDir = false ∧
      List.isPrefixOf ["r"] e.path = true ∧
      nameEndsWithExt (e.path.getLastD "") "txt" = true) ∧
    files_by_extension hiddenFileFS ["r"] ["txt"] = [] := by
  decide

/-- The conditions under which the glob pattern `{root}/**/*.{ext}`
matches a path, spelled out. -/
theorem globMatch_eq_true (root : List String) (ext : String) (p : List String) :
    globMatch root ext p = true ↔
      List.isPrefixOf root p = true ∧ root.length < p.length ∧
      (∀ m ∈ (p.drop root.length).dropLast, hiddenName m = false) ∧
      hiddenName ((p.drop root.length).getLastD "") = false ∧
      nameEndsWithExt ((p.drop root.length).getLastD "") ext = true := by
  unfold globMatch
  simp only [Bool.and_eq_true, decide_eq_true_eq, List.all_eq_true, Bool.not_eq_true',
    and_assoc]

/-- Claim C5 (amended): the enumerator returns exactly the paths of the
non-directory entries strictly under the root whose final name ends with
`.<ext>` for some listed extension, and whose final name and intermediate
directory names do not begin with a dot (glob's hidden-name exclusion);
directories and non-matching files are never included. -/
theorem files_by_extension_mem (fs : List FSEntry) (root : List String)
    (exts : List String) (p : List String) :
    p ∈ files_by_extension fs root exts ↔
      ∃ e ∈ fs, e.path = p ∧ e.isDir = false ∧
        List.isPrefixOf root p = true ∧ root.length < p.length ∧
        (∀ m ∈ (p.drop root.length).dropLast, hiddenName m = false) ∧
        hiddenName ((p.drop root.length).getLastD "") = false ∧
        ∃ x ∈ exts, nameEndsWithExt ((p.drop root.length).getLastD "") x = true := by
  unfold files_by_extension
  constructor
  · intro hp
    rcases List.mem_map.mp hp with ⟨e, he, hep⟩
    rcases List.mem_filter.mp he with ⟨hej, hedir⟩
    rcases List.mem_flatten.mp hej with ⟨l, hl, hel⟩
    rcases List.mem_map.mp hl with ⟨x, hx, hlx⟩
    rw [← hlx] at hel
    rcases List.mem_filter.mp hel with ⟨hefs, hglob⟩
    rw [globMatch_eq_true] at hglob
    rw [← hep]
    rcases hglob with ⟨hpre, hlen, hmids, hlast, hext⟩
    exact ⟨e, hefs, rfl, by simpa using hedir, hpre, hlen, hmids, hlast, x, hx, hext⟩
  · rintro ⟨e, hefs, hep, hdir, hpre, hlen, hmids, hlast, x, hx, hext⟩
    subst hep
    apply List.mem_map.mpr
    refine ⟨e, ?_, rfl⟩
    apply List.mem_filter.mpr
    refine ⟨?_, by simp [hdir]⟩
    apply List.mem_flatten.mpr
    refine ⟨fs.filter (fun e2 => globMatch root x e2.path),
      List.mem_map.mpr ⟨x, hx, rfl⟩, ?_⟩
    apply List.mem_filter.mpr
    exact ⟨hefs, (globMatch_eq_true root x e.path).mpr ⟨hpre, hlen, hmids, hlast, hext⟩⟩

/-- A filesystem with one visible text file under the root. -/
def visibleFileFS : List FSEntry := [⟨["r", "a.txt"], false⟩]

/-- Witness for the amended C5: the visible `a.txt` is returned. -/
theorem files_by_extension_mem_witness :
    ["r", "a.txt"] ∈ files_by_extension visibleFileFS ["r"] ["txt"] :=
  (files_by_extension_mem visibleFileFS ["r"] ["txt"] ["r", "a.txt"]).mpr
    ⟨⟨["r", "a.txt"], false⟩, by simp [visibleFileFS], rfl, rfl, by decide, by decide,
      by decide, by decide, "txt", by simp, by decide⟩

end Hunter
